import Mathlib

/-!
Verification of the acestream-orchestrator control plane.

This file shallowly embeds the parts of the repository that the claims
talk about and proves (or refutes) each claim against the embedding:

* `app/services/ports.py`   — the three-range port allocator,
* `app/services/state.py`   — the state store (engines, streams, stats),
* `app/services/provisioner.py` — AceStream provisioning env/ports and teardown,
* `app/services/reindex.py` — boot-time reindexing,
* `app/services/autoscaler.py` — `scale_to`.

Python dicts (string keyed, insertion ordered, assignment keeps the
position of an existing key) are embedded as association lists with the
upsert `dictSet`; Python's `x or y` on strings/ints is embedded by its
truthiness semantics (`None`, `""` and `0` are falsy); `int(s)` is
embedded as decimal parsing (`pyInt?`; ports are decimal digit strings
in every code path modelled here); `datetime` values are
embedded as an instant plus an optional timezone tag (`none` = naive).
-/

/-- A Python `datetime`: an instant (`ticks`) together with its `tzinfo`;
`tz = none` models a naive datetime, `tz = some 0` models `timezone.utc`. -/
structure PyDateTime where
  ticks : Nat
  tz : Option Int
  deriving DecidableEq, Repr

/-- UTC now: `datetime.now(timezone.utc)` as used by `State.now()`: always UTC-aware. -/
def nowUtc (t : Nat) : PyDateTime := ⟨t, some 0⟩

/-- Lookup in a Python dict embedded as an association list (first match wins;
`dictSet` keeps keys unique, so this is exact). -/
def dictGet {α : Type} : List (String × α) → String → Option α
  | [], _ => none
  | (k', v) :: t, k => if k' = k then some v else dictGet t k

/-- Python dict assignment `d[k] = v`: replaces the value in place when the key
exists (keeping its position, as CPython dicts do) and appends otherwise. -/
def dictSet {α : Type} : List (String × α) → String → α → List (String × α)
  | [], k, v => [(k, v)]
  | (k', v') :: t, k, v => if k' = k then (k, v) :: t else (k', v') :: dictSet t k v

theorem dictGet_dictSet_self {α : Type} (m : List (String × α)) (k : String) (v : α) :
    dictGet (dictSet m k v) k = some v := by
  induction m with
  | nil => simp [dictGet, dictSet]
  | cons h t ih =>
    by_cases hk : h.1 = k
    · simp [dictSet, dictGet, hk]
    · simp [dictSet, dictGet, hk, ih]

theorem dictGet_dictSet_ne {α : Type} (m : List (String × α)) (k k' : String) (v : α)
    (h : k' ≠ k) : dictGet (dictSet m k v) k' = dictGet m k' := by
  induction m with
  | nil => simp [dictGet, dictSet, Ne.symm h]
  | cons hd t ih =>
    obtain ⟨a, b⟩ := hd
    by_cases hk : a = k
    · subst hk
      simp [dictSet, dictGet, Ne.symm h]
    · by_cases hk' : a = k' <;> simp [dictSet, dictGet, hk, hk', ih, h]

theorem mem_dictSet {α : Type} {m : List (String × α)} {k : String} {v : α} {x : String × α}
    (h : x ∈ dictSet m k v) : x = (k, v) ∨ x ∈ m := by
  induction m with
  | nil => simpa [dictSet] using h
  | cons hd t ih =>
    obtain ⟨a, b⟩ := hd
    by_cases hk : a = k
    · simp only [dictSet, if_pos hk] at h
      rcases List.mem_cons.mp h with h | h
      · exact Or.inl h
      · exact Or.inr (List.mem_cons_of_mem _ h)
    · simp only [dictSet, if_neg hk] at h
      rcases List.mem_cons.mp h with h | h
      · exact Or.inr (h ▸ List.mem_cons_self (a, b) t)
      · rcases ih h with h' | h'
        · exact Or.inl h'
        · exact Or.inr (List.mem_cons_of_mem _ h')

theorem dictGet_dictSet_isSome {α : Type} (m : List (String × α)) (k k' : String) (v : α)
    (h : (dictGet m k').isSome) : (dictGet (dictSet m k v) k').isSome := by
  by_cases hk : k' = k
  · subst hk; simp [dictGet_dictSet_self]
  · rwa [dictGet_dictSet_ne m k k' v hk]

/-- Python `int(s)` on the port strings these code paths parse: a non-empty
all-digit decimal string; anything else raises (modelled as `none`). Defined
over the character list so that concrete instances reduce by `decide`. -/
def pyInt? (s : String) : Option Nat :=
  if s.data ≠ [] ∧ s.data.all Char.isDigit then
    some (s.data.foldl (fun n c => n * 10 + (c.toNat - 48)) 0)
  else none

/-!
## Port allocator (`app/services/ports.py`)

Each of the three sub-allocators (`host`, `http`, `https`) owns an inclusive
range `[lo, hi]`, a rotating cursor `next` and a `used` set.
-/

/-- One sub-allocator of `PortAllocator`: range bounds, cursor, used set. -/
structure SubAlloc where
  lo : Nat
  hi : Nat
  next : Nat
  used : Finset Nat
  deriving DecidableEq

/-- Model of `PortAllocator._next_in`: probe from `cur`, wrapping at `hi` back to `lo`,
with the source's `for _ in range(hi - lo + 1)` loop rendered as fuel
(`hi + 1 - lo` is Python's `hi - lo + 1` clamped at zero exactly as `range`
clamps it); `none` models `RuntimeError("no free ports in range")`. -/
def next_in (lo hi : Nat) (used : Finset Nat) : Nat → Nat → Option Nat
  | _, 0 => none
  | cur, fuel + 1 =>
    let p := if hi < cur then lo else cur
    if p ∉ used then some p else next_in lo hi used (p + 1) fuel

/-- The full sweep `self._next_in(cur, lo, hi, used)` with its loop bound. -/
def nextInRun (s : SubAlloc) : Option Nat :=
  next_in s.lo s.hi s.used s.next (s.hi + 1 - s.lo)

/-- The order in which `_next_in` probes the range when starting from cursor
`cur`: from the (wrapped) start position up to `hi`, then from `lo` up to just
below the start position. This definition follows the spec's words "probe
starting at `next`, wrapping at `hi` back to `lo`". -/
def probeSeq (lo hi cur : Nat) : List Nat :=
  if hi < cur then List.range' lo (hi + 1 - lo)
  else List.range' cur (hi + 1 - cur) ++ List.range' lo (cur - lo)

theorem next_in_gt (lo hi : Nat) (used : Finset Nat) (q f : Nat) (h : lo ≤ hi) (hq : hi < q) :
    next_in lo hi used q f = next_in lo hi used lo f := by
  cases f with
  | zero => rfl
  | succ f => simp [next_in, hq, Nat.not_lt.mpr h]

theorem next_in_scan (lo hi : Nat) (used : Finset Nat) :
    ∀ (f q : Nat), lo ≤ q → q + f ≤ hi + 1 →
      next_in lo hi used q f = (List.range' q f).find? (fun p => decide (p ∉ used)) := by
  intro f
  induction f with
  | zero => intro q _ _; rfl
  | succ f ih =>
    intro q hq hf
    have hqhi : ¬ hi < q := by omega
    rw [List.range'_succ]
    by_cases hfree : q ∉ used
    · simp [next_in, hqhi, hfree]
    · have : next_in lo hi used q (f + 1) = next_in lo hi used (q + 1) f := by
        simp [next_in, hqhi, hfree]
      rw [this, ih (q + 1) (by omega) (by omega)]
      simp [hfree]

theorem next_in_split (lo hi : Nat) (used : Finset Nat) (h : lo ≤ hi) :
    ∀ (n q k : Nat), hi + 1 - q = n → lo ≤ q → q ≤ hi + 1 → k ≤ q - lo →
      next_in lo hi used q (n + k) =
        (List.range' q (hi + 1 - q) ++ List.range' lo k).find? (fun p => decide (p ∉ used)) := by
  intro n
  induction n with
  | zero =>
    intro q k hn hq hq' hk
    have hq1 : q = hi + 1 := by omega
    subst hq1
    rw [Nat.zero_add, next_in_gt lo hi used (hi + 1) k h (by omega),
      next_in_scan lo hi used k lo le_rfl (by omega)]
    simp [Nat.sub_self]
  | succ n ih =>
    intro q k hn hq hq' hk
    have hqhi : q ≤ hi := by omega
    have hne : hi + 1 - q = n + 1 := hn
    rw [hne, List.range'_succ]
    by_cases hfree : q ∉ used
    · have : n + 1 + k = (n + k) + 1 := by omega
      rw [this]
      simp [next_in, Nat.not_lt.mpr hqhi, hfree]
    · have hstep : next_in lo hi used q (n + 1 + k) = next_in lo hi used (q + 1) (n + k) := by
        have : n + 1 + k = (n + k) + 1 := by omega
        rw [this]
        simp [next_in, Nat.not_lt.mpr hqhi, hfree]
      rw [hstep, ih (q + 1) k (by omega) (by omega) (by omega) (by omega)]
      have : hi + 1 - (q + 1) = n := by omega
      rw [this]
      simp [hfree]

/-- The sweep `_next_in` returns exactly the first unused port in probe order. -/
theorem nextInRun_eq_find (s : SubAlloc) (h : s.lo ≤ s.hi) (hc : s.lo ≤ s.next) :
    nextInRun s = (probeSeq s.lo s.hi s.next).find? (fun p => decide (p ∉ s.used)) := by
  unfold nextInRun probeSeq
  by_cases hcur : s.hi < s.next
  · rw [next_in_gt s.lo s.hi s.used s.next _ h hcur]
    have := next_in_split s.lo s.hi s.used h (s.hi + 1 - s.lo) s.lo 0 rfl le_rfl (by omega)
      (by omega)
    simpa [hcur] using this
  · have hle : s.next ≤ s.hi := Nat.not_lt.mp hcur
    have htot : s.hi + 1 - s.lo = (s.hi + 1 - s.next) + (s.next - s.lo) := by omega
    rw [htot]
    have := next_in_split s.lo s.hi s.used h (s.hi + 1 - s.next) s.next (s.next - s.lo) rfl hc
      (by omega) le_rfl
    simpa [hcur] using this

theorem mem_probeSeq_bounds {lo hi cur p : Nat} (h : lo ≤ hi) (hc : lo ≤ cur)
    (hp : p ∈ probeSeq lo hi cur) : lo ≤ p ∧ p ≤ hi := by
  unfold probeSeq at hp
  by_cases hcur : hi < cur
  · simp only [if_pos hcur, List.mem_range'_1] at hp
    omega
  · simp only [if_neg hcur, List.mem_append, List.mem_range'_1] at hp
    rcases hp with hp | hp <;> omega

theorem mem_probeSeq_of_range {lo hi cur p : Nat} (h : lo ≤ hi) (hc : lo ≤ cur)
    (h1 : lo ≤ p) (h2 : p ≤ hi) : p ∈ probeSeq lo hi cur := by
  unfold probeSeq
  by_cases hcur : hi < cur
  · simp only [if_pos hcur, List.mem_range'_1]
    omega
  · simp only [if_neg hcur, List.mem_append, List.mem_range'_1]
    by_cases hpc : p < cur
    · right; omega
    · left; omega

/-- Model of `PortAllocator.alloc_host` / `alloc_http` on one sub-allocator: take the
first free port from the sweep, mark it used, move the cursor past it;
`none` models the `RuntimeError` escaping from `_next_in`. -/
def allocSub (s : SubAlloc) : Option (Nat × SubAlloc) :=
  match nextInRun s with
  | none => none
  | some p => some (p, { s with used := insert p s.used, next := p + 1 })

/-- One iteration of the `while True` loop in `PortAllocator.alloc_https`:
`Sum.inr none` models the `RuntimeError` from `_next_in`, `Sum.inr (some _)`
a successful return, and `Sum.inl s'` the `continue` taken when the candidate
equals `avoid` (the candidate is NOT marked used; only the cursor moves). -/
def alloc_https_step (avoid : Option Nat) (s : SubAlloc) :
    Sum SubAlloc (Option (Nat × SubAlloc)) :=
  match nextInRun s with
  | none => Sum.inr none
  | some p =>
    if avoid = some p then Sum.inl { s with next := p + 1 }
    else Sum.inr (some (p, { s with used := insert p s.used, next := p + 1 }))

/-- The unbounded `while True` loop of `alloc_https`, instrumented with fuel:
`some r` means the loop returns verdict `r` within `fuel` iterations, `none`
means it is still running. The loop itself has no bound in the source. -/
def alloc_https_fuel (avoid : Option Nat) : Nat → SubAlloc → Option (Option (Nat × SubAlloc))
  | 0, _ => none
  | fuel + 1, s =>
    match alloc_https_step avoid s with
    | Sum.inr r => some r
    | Sum.inl s' => alloc_https_fuel avoid fuel s'

theorem nextInRun_exhausted (s : SubAlloc) (h : s.lo ≤ s.hi) (hc : s.lo ≤ s.next)
    (hall : ∀ p, s.lo ≤ p → p ≤ s.hi → p ∈ s.used) : nextInRun s = none := by
  rw [nextInRun_eq_find s h hc]
  rw [List.find?_eq_none]
  intro x hx
  obtain ⟨h1, h2⟩ := mem_probeSeq_bounds h hc hx
  simp [hall x h1 h2]

theorem nextInRun_finds (s : SubAlloc) (h : s.lo ≤ s.hi) (hc : s.lo ≤ s.next)
    (hfree : ∃ q, s.lo ≤ q ∧ q ≤ s.hi ∧ q ∉ s.used) :
    ∃ p, nextInRun s = some p ∧ s.lo ≤ p ∧ p ≤ s.hi ∧ p ∉ s.used := by
  obtain ⟨q, hq1, hq2, hq3⟩ := hfree
  have hne : nextInRun s ≠ none := by
    rw [nextInRun_eq_find s h hc]
    intro hnone
    rw [List.find?_eq_none] at hnone
    exact hnone q (mem_probeSeq_of_range h hc hq1 hq2) (by simpa using hq3)
  cases hp : nextInRun s with
  | none => exact absurd hp hne
  | some p =>
    refine ⟨p, rfl, ?_, ?_, ?_⟩
    · rw [nextInRun_eq_find s h hc] at hp
      exact (mem_probeSeq_bounds h hc (List.mem_of_find?_eq_some hp)).1
    · rw [nextInRun_eq_find s h hc] at hp
      exact (mem_probeSeq_bounds h hc (List.mem_of_find?_eq_some hp)).2
    · rw [nextInRun_eq_find s h hc] at hp
      simpa using List.find?_some hp

theorem next_in_first (s : SubAlloc) (h1 : s.lo ≤ s.next) (h2 : s.next ≤ s.hi)
    (hfree : s.next ∉ s.used) : nextInRun s = some s.next := by
  unfold nextInRun
  have : s.hi + 1 - s.lo = (s.hi - s.lo) + 1 := by omega
  rw [this]
  simp [next_in, Nat.not_lt.mpr h2, hfree]

theorem range'_concat_one (s n : Nat) :
    List.range' s (n + 1) = List.range' s n ++ [s + n] := by
  simpa using (List.range'_concat s n : List.range' s (n + 1) = _)

/-- When the probe starts just past `a` (with `a` inside the range), `a` is the
last position probed: the probe order splits as `l1 ++ [a]` with `a ∉ l1` and
`l1` containing every other position of the range. -/
theorem probeSeq_succ_split {lo hi a : Nat} (h1 : lo ≤ a) (h2 : a ≤ hi) :
    ∃ l1, probeSeq lo hi (a + 1) = l1 ++ [a] ∧ a ∉ l1 ∧
      ∀ x, lo ≤ x → x ≤ hi → x ≠ a → x ∈ l1 := by
  by_cases hcase : a < hi
  · refine ⟨List.range' (a + 1) (hi - a) ++ List.range' lo (a - lo), ?_, ?_, ?_⟩
    · unfold probeSeq
      have hna : ¬ hi < a + 1 := by omega
      rw [if_neg hna]
      have e1 : a + 1 - lo = (a - lo) + 1 := by omega
      have e2 : List.range' lo ((a - lo) + 1) = List.range' lo (a - lo) ++ [lo + (a - lo)] :=
        range'_concat_one lo (a - lo)
      have e3 : lo + (a - lo) = a := by omega
      rw [e1, e2, e3, List.append_assoc]
      have e4 : hi + 1 - (a + 1) = hi - a := by omega
      rw [e4]
    · intro hmem
      rcases List.mem_append.mp hmem with hm | hm
      · have := (List.mem_range'_1.mp hm).1; omega
      · have := (List.mem_range'_1.mp hm).2; omega
    · intro x hx1 hx2 hx3
      rcases Nat.lt_or_ge x (a + 1) with hlt | hge
      · exact List.mem_append.mpr (Or.inr (List.mem_range'_1.mpr ⟨hx1, by omega⟩))
      · exact List.mem_append.mpr (Or.inl (List.mem_range'_1.mpr ⟨hge, by omega⟩))
  · have ha : a = hi := by omega
    subst ha
    refine ⟨List.range' lo (a - lo), ?_, ?_, ?_⟩
    · unfold probeSeq
      rw [if_pos (by omega)]
      have e1 : a + 1 - lo = (a - lo) + 1 := by omega
      have e2 : List.range' lo ((a - lo) + 1) = List.range' lo (a - lo) ++ [lo + (a - lo)] :=
        range'_concat_one lo (a - lo)
      have e3 : lo + (a - lo) = a := by omega
      rw [e1, e2, e3]
    · intro hmem
      have := (List.mem_range'_1.mp hmem).2; omega
    · intro x hx1 hx2 hx3
      exact List.mem_range'_1.mpr ⟨hx1, by omega⟩

theorem find?_last_not {α : Type} {l : List α} {a : α} {p : α → Bool}
    (hnd : a ∉ l) (h : (l ++ [a]).find? p = some a) : ∀ x ∈ l, p x = false := by
  induction l with
  | nil => intro x hx; cases hx
  | cons b t ih =>
    intro x hx
    have hab : a ≠ b := fun he => hnd (he ▸ List.mem_cons_self b t)
    cases hpb : p b with
    | true =>
      rw [List.cons_append, List.find?_cons_of_pos _ hpb] at h
      exact absurd (Option.some.inj h) (Ne.symm hab)
    | false =>
      rw [List.cons_append, List.find?_cons_of_neg _ (by simp [hpb])] at h
      rcases List.mem_cons.mp hx with hx | hx
      · exact hx ▸ hpb
      · exact ih (fun hm => hnd (List.mem_cons_of_mem _ hm)) h x hx

/-- If the sweep that starts just past `a` finds `a` itself, then every other
port of the range is used. -/
theorem nextInRun_from_succ_eq_avoid (s : SubAlloc) (a : Nat)
    (hwf : s.lo ≤ s.hi) (h1 : s.lo ≤ a) (h2 : a ≤ s.hi) (hnext : s.next = a + 1)
    (hfind : nextInRun s = some a) :
    ∀ x, s.lo ≤ x → x ≤ s.hi → x ≠ a → x ∈ s.used := by
  intro x hx1 hx2 hx3
  obtain ⟨l1, hsplit, hnotmem, hall⟩ := probeSeq_succ_split h1 h2
  rw [nextInRun_eq_find s hwf (by omega), hnext, hsplit] at hfind
  have := find?_last_not hnotmem hfind x (hall x hx1 hx2 hx3)
  by_contra hxu
  simp [hxu] at this

theorem alloc_https_fuel_succ (avoid : Option Nat) (f : Nat) (s : SubAlloc) :
    alloc_https_fuel avoid (f + 1) s =
      match alloc_https_step avoid s with
      | Sum.inr r => some r
      | Sum.inl s' => alloc_https_fuel avoid f s' := rfl

theorem alloc_https_fuel_inl (f : Nat) {avoid : Option Nat} {s s' : SubAlloc}
    (h : alloc_https_step avoid s = Sum.inl s') :
    alloc_https_fuel avoid (f + 1) s = alloc_https_fuel avoid f s' := by
  rw [alloc_https_fuel_succ, h]

theorem alloc_https_fuel_inr (f : Nat) {avoid : Option Nat} {s : SubAlloc}
    {r : Option (Nat × SubAlloc)} (h : alloc_https_step avoid s = Sum.inr r) :
    alloc_https_fuel avoid (f + 1) s = some r := by
  rw [alloc_https_fuel_succ, h]

/-- C3: on any allocator state the code itself can be in (the cursor starts at
`lo` and only ever moves to `p + 1 ≥ lo`, so `lo ≤ next` always holds; config
validation guarantees `lo ≤ hi`): if every port of `[lo, hi]` is used
(`|used ∩ [lo, hi]| = hi − lo + 1`) then `alloc` fails with `NoFreePort`;
otherwise it succeeds and returns exactly the first unused port in probe order
(starting at the cursor, wrapping at `hi` back to `lo`), which lies in
`[lo, hi]`, was not used before, is used after, and the cursor becomes
`p + 1`. The successor state again satisfies `lo ≤ next`. -/
theorem alloc_first_free_in_range (s : SubAlloc) (hwf : s.lo ≤ s.hi) (hcur : s.lo ≤ s.next) :
    (((Finset.Icc s.lo s.hi).filter (fun p => p ∈ s.used)).card = s.hi - s.lo + 1 →
      allocSub s = none)
    ∧ ((∃ q, s.lo ≤ q ∧ q ≤ s.hi ∧ q ∉ s.used) →
      ∃ p s', allocSub s = some (p, s')
        ∧ some p = (probeSeq s.lo s.hi s.next).find? (fun q => decide (q ∉ s.used))
        ∧ s.lo ≤ p ∧ p ≤ s.hi ∧ p ∉ s.used
        ∧ s'.used = insert p s.used ∧ p ∈ s'.used ∧ s'.next = p + 1
        ∧ s'.lo = s.lo ∧ s'.hi = s.hi ∧ s'.lo ≤ s'.next) := by
  constructor
  · intro hcard
    have hall : ∀ p, s.lo ≤ p → p ≤ s.hi → p ∈ s.used := by
      intro p hp1 hp2
      have hsub : (Finset.Icc s.lo s.hi).filter (fun p => p ∈ s.used) ⊆ Finset.Icc s.lo s.hi :=
        Finset.filter_subset _ _
      have hic : (Finset.Icc s.lo s.hi).card = s.hi - s.lo + 1 := by
        rw [Nat.card_Icc]; omega
      have heq : (Finset.Icc s.lo s.hi).filter (fun p => p ∈ s.used) = Finset.Icc s.lo s.hi :=
        Finset.eq_of_subset_of_card_le hsub (by omega)
      have hpmem : p ∈ (Finset.Icc s.lo s.hi).filter (fun p => p ∈ s.used) := by
        rw [heq]; exact Finset.mem_Icc.mpr ⟨hp1, hp2⟩
      exact (Finset.mem_filter.mp hpmem).2
    unfold allocSub
    rw [nextInRun_exhausted s hwf hcur hall]
  · intro hfree
    obtain ⟨p, hp, h1, h2, h3⟩ := nextInRun_finds s hwf hcur hfree
    refine ⟨p, { s with used := insert p s.used, next := p + 1 }, ?_, ?_, h1, h2, h3, rfl,
      Finset.mem_insert_self p _, rfl, rfl, rfl, ?_⟩
    · unfold allocSub
      rw [hp]
    · rw [← nextInRun_eq_find s hwf hcur, hp]
    · show s.lo ≤ p + 1
      omega

/-- Witness for `alloc_first_free_in_range` on a concrete allocator state. -/
theorem alloc_first_free_in_range_witness :
    ∃ p s', allocSub ⟨1, 3, 3, insert 3 ∅⟩ = some (p, s')
      ∧ some p = (probeSeq 1 3 3).find? (fun q => decide (q ∉ (insert 3 ∅ : Finset Nat)))
      ∧ 1 ≤ p ∧ p ≤ 3 ∧ p ∉ (insert 3 ∅ : Finset Nat)
      ∧ s'.used = insert p (insert 3 ∅) ∧ p ∈ s'.used ∧ s'.next = p + 1
      ∧ s'.lo = 1 ∧ s'.hi = 3 ∧ s'.lo ≤ s'.next :=
  (alloc_first_free_in_range ⟨1, 3, 3, insert 3 ∅⟩ (by decide) (by decide)).2
    ⟨1, by decide, by decide, by decide⟩

/-- The state in which the `alloc_https` loop is stuck: a one-port range whose
only port equals `avoid`, cursor already moved past it. -/
def httpsStuck : SubAlloc := ⟨45000, 45000, 45001, ∅⟩

theorem alloc_https_step_stuck :
    alloc_https_step (some 45000) httpsStuck = Sum.inl httpsStuck := by decide

theorem alloc_https_fuel_stuck (f : Nat) :
    alloc_https_fuel (some 45000) f httpsStuck = none := by
  induction f with
  | zero => rfl
  | succ f ih => rw [alloc_https_fuel_inl f alloc_https_step_stuck]; exact ih

/-- C2 counterexample: from the allocator state with range `45000-45000`, an
empty used set and cursor `45000`, the call `alloc_https(avoid=45000)` neither
returns a port nor raises `NoFreePort` — the `while True` loop runs forever
(no amount of fuel produces a verdict), because the only free port equals
`avoid` and the skipped candidate is never marked used. -/
theorem alloc_https_no_verdict :
    ¬ ∃ f r, alloc_https_fuel (some 45000) f ⟨45000, 45000, 45000, ∅⟩ = some r := by
  rintro ⟨f, r, hfr⟩
  cases f with
  | zero => exact Option.noConfusion hfr
  | succ f =>
    have hstep : alloc_https_step (some 45000) ⟨45000, 45000, 45000, ∅⟩ =
        Sum.inl httpsStuck := by decide
    rw [alloc_https_fuel_inl f hstep, alloc_https_fuel_stuck] at hfr
    exact Option.noConfusion hfr

/-- C2 (amended): `alloc_https(avoid)` terminates in the two cases the code can
actually reach — if every port of the range is used it raises `NoFreePort`
after the single sweep of the first iteration, and if some unused port of the
range differs from `avoid` it returns within two loop iterations a port `p` of
the range with `p ≠ avoid`, `p` unused before the call and marked used after
(a candidate skipped for equalling `avoid` is not marked used: the final used
set is exactly `insert p` of the old one). In the remaining case — the only
unused port equals `avoid` — the loop never terminates
(`alloc_https_no_verdict`). Hypotheses `lo ≤ hi` and `lo ≤ next` hold on every
state the allocator constructs. -/
theorem alloc_https_terminates (s : SubAlloc) (avoid : Option Nat)
    (hwf : s.lo ≤ s.hi) (hcur : s.lo ≤ s.next) :
    ((∀ p, s.lo ≤ p → p ≤ s.hi → p ∈ s.used) → alloc_https_fuel avoid 1 s = some none)
    ∧ ((∃ q, s.lo ≤ q ∧ q ≤ s.hi ∧ q ∉ s.used ∧ some q ≠ avoid) →
        ∃ p s', alloc_https_fuel avoid 2 s = some (some (p, s'))
          ∧ s.lo ≤ p ∧ p ≤ s.hi ∧ some p ≠ avoid ∧ p ∉ s.used
          ∧ s'.used = insert p s.used ∧ s'.next = p + 1) := by
  constructor
  · intro hall
    have h := nextInRun_exhausted s hwf hcur hall
    have hstep : alloc_https_step avoid s = Sum.inr none := by
      simp [alloc_https_step, h]
    exact alloc_https_fuel_inr 0 hstep
  · rintro ⟨q, hq1, hq2, hq3, hq4⟩
    obtain ⟨p, hp, h1, h2, h3⟩ := nextInRun_finds s hwf hcur ⟨q, hq1, hq2, hq3⟩
    by_cases hav : avoid = some p
    · subst hav
      set s2 : SubAlloc := { s with next := p + 1 } with hs2
      have hstep1 : alloc_https_step (some p) s = Sum.inl s2 := by
        simp [alloc_https_step, hp]
      have hcur2 : s2.lo ≤ s2.next := by
        show s.lo ≤ p + 1
        omega
      obtain ⟨p2, hp2, h21, h22, h23⟩ :=
        nextInRun_finds s2 hwf hcur2 ⟨q, hq1, hq2, hq3⟩
      have hne : p2 ≠ p := by
        intro he
        have hall := nextInRun_from_succ_eq_avoid s2 p hwf h1 h2 rfl (he ▸ hp2)
        exact hq3 (hall q hq1 hq2 (fun he2 => hq4 (congrArg some he2)))
      have hne' : ¬ p = p2 := fun he => hne he.symm
      have hstep2 : alloc_https_step (some p) s2 =
          Sum.inr (some (p2, { s2 with used := insert p2 s2.used, next := p2 + 1 })) := by
        simp [alloc_https_step, hp2, hne']
      refine ⟨p2, { s2 with used := insert p2 s2.used, next := p2 + 1 },
        (alloc_https_fuel_inl 1 hstep1).trans (alloc_https_fuel_inr 0 hstep2),
        h21, h22, fun he => hne' (Option.some.inj he.symm), h23, rfl, rfl⟩
    · have hstep : alloc_https_step avoid s =
          Sum.inr (some (p, { s with used := insert p s.used, next := p + 1 })) := by
        simp [alloc_https_step, hp, hav]
      refine ⟨p, { s with used := insert p s.used, next := p + 1 },
        alloc_https_fuel_inr 1 hstep, h1, h2, fun he => hav he.symm, h3, rfl, rfl⟩

/-- Witness for `alloc_https_terminates`: range `45000-45001`, empty used set,
avoid `45000`; the first candidate equals `avoid`, the second succeeds. -/
theorem alloc_https_terminates_witness :
    ∃ p s', alloc_https_fuel (some 45000) 2 ⟨45000, 45001, 45000, ∅⟩ = some (some (p, s'))
      ∧ 45000 ≤ p ∧ p ≤ 45001 ∧ some p ≠ some 45000 ∧ p ∉ (∅ : Finset Nat)
      ∧ s'.used = insert p ∅ ∧ s'.next = p + 1 :=
  (alloc_https_terminates ⟨45000, 45001, 45000, ∅⟩ (some 45000) (by decide) (by decide)).2
    ⟨45001, by decide, by decide, by decide, by decide⟩

/-!
## State store (`app/services/state.py`, `app/models/schemas.py`,
`app/models/db_models.py`)
-/

/-- Pydantic `schemas.EngineState`. -/
structure EngineStateM where
  container_id : String
  host : String
  port : Nat
  labels : List (String × String)
  first_seen : PyDateTime
  last_seen : PyDateTime
  streams : List String
  deriving DecidableEq

/-- Pydantic `schemas.StreamState`; `ended_at` defaults to `None` and
`status` to `"started"` when omitted at a construction site. -/
structure StreamStateM where
  id : String
  key_type : String
  key : String
  container_id : String
  playback_session_id : String
  stat_url : String
  command_url : String
  is_live : Bool
  started_at : PyDateTime
  ended_at : Option PyDateTime
  status : String
  deriving DecidableEq

/-- Pydantic `schemas.StreamStatSnapshot`. -/
structure StatSnap where
  ts : PyDateTime
  peers : Option Int
  speed_down : Option Int
  speed_up : Option Int
  downloaded : Option Int
  uploaded : Option Int
  status : Option String
  deriving DecidableEq

/-- Pydantic `schemas.EngineAddress`. -/
structure EngineAddress where
  host : String
  port : Nat
  deriving DecidableEq

/-- Pydantic `schemas.StreamKey` (`key_type` is one of content_id/infohash/url/magnet). -/
structure StreamKey where
  key_type : String
  key : String
  deriving DecidableEq

/-- Pydantic `schemas.SessionInfo`; `is_live` is an `int` in the schema. -/
structure SessionInfo where
  playback_session_id : String
  stat_url : String
  command_url : String
  is_live : Nat
  deriving DecidableEq

/-- Pydantic `schemas.StreamStartedEvent`. -/
structure StreamStartedEvent where
  container_id : Option String
  engine : EngineAddress
  stream : StreamKey
  session : SessionInfo
  labels : List (String × String)
  deriving DecidableEq

/-- Pydantic `schemas.StreamEndedEvent`. -/
structure StreamEndedEvent where
  container_id : Option String
  stream_id : Option String
  reason : Option String
  deriving DecidableEq

/-- Model of `db_models.EngineRow` as read back from the `engines` table. -/
structure EngineRowM where
  engine_key : String
  container_id : Option String
  host : String
  port : Nat
  labels : Option (List (String × String))
  first_seen : PyDateTime
  last_seen : PyDateTime
  deriving DecidableEq

/-- Model of `db_models.StreamRow` as read back from the `streams` table. -/
structure StreamRowM where
  id : String
  engine_key : String
  key_type : String
  key : String
  playback_session_id : String
  stat_url : String
  command_url : String
  is_live : Bool
  started_at : PyDateTime
  ended_at : Option PyDateTime
  status : String
  deriving DecidableEq

/-- The three maps owned by `State` (`engines`, `streams`, `stream_stats`),
in insertion order, keys unique. -/
structure OrchState where
  engines : List (String × EngineStateM)
  streams : List (String × StreamStateM)
  stream_stats : List (String × List StatSnap)
  deriving DecidableEq

/-- The empty `State()`. -/
def initState : OrchState := ⟨[], [], []⟩

/-- Python `d.update(other)`: merge `other` into `d`, `other` wins on
collisions, existing keys keep their position, new keys append in order. -/
def dictUpdate {α : Type} (m other : List (String × α)) : List (String × α) :=
  other.foldl (fun acc kv => dictSet acc kv.1 kv.2) m

/-- The stream id derived in `State.on_stream_started` (state.py line 32):
`(evt.labels.get("stream_id") if evt.labels else None) or
f"{evt.stream.key}|{evt.session.playback_session_id}"` — note the Python `or`,
which discards a falsy (empty-string) label value. -/
def streamIdOf (evt : StreamStartedEvent) : String :=
  let fromLabels : Option String :=
    if evt.labels = [] then none else dictGet evt.labels "stream_id"
  match fromLabels with
  | some v =>
    if v = "" then evt.stream.key ++ "|" ++ evt.session.playback_session_id else v
  | none => evt.stream.key ++ "|" ++ evt.session.playback_session_id

/-- Model of `State.on_stream_started` (in-memory effect; the write-through DB commit
has no effect on the state maps). Returns the created stream and the new
state. `now()` calls within one invocation are collapsed to one instant `t`. -/
def on_stream_started (s : OrchState) (evt : StreamStartedEvent) (t : Nat) :
    StreamStateM × OrchState :=
  let now := nowUtc t
  let key : String := match evt.container_id with
    | some c => if c = "" then evt.engine.host ++ ":" ++ toString evt.engine.port else c
    | none => evt.engine.host ++ ":" ++ toString evt.engine.port
  let eng : EngineStateM := match dictGet s.engines key with
    | none => ⟨key, evt.engine.host, evt.engine.port, evt.labels, now, now, []⟩
    | some e =>
      { e with host := evt.engine.host, port := evt.engine.port, last_seen := now,
               labels := if evt.labels = [] then e.labels else dictUpdate e.labels evt.labels }
  let sid := streamIdOf evt
  let st : StreamStateM := ⟨sid, evt.stream.key_type, evt.stream.key, key,
    evt.session.playback_session_id, evt.session.stat_url, evt.session.command_url,
    decide (evt.session.is_live ≠ 0), now, none, "started"⟩
  let eng := if sid ∈ eng.streams then eng else { eng with streams := eng.streams ++ [sid] }
  (st, { s with engines := dictSet s.engines key eng, streams := dictSet s.streams sid st })

/-- The stream selection of `State.on_stream_ended`: the stream under
`evt.stream_id` when that id is truthy and present, else the first stream in
reverse insertion order whose `container_id` matches `evt.container_id`
(any stream, when the event's container id is falsy, via the Python
`evt.container_id or s.container_id`) and whose `ended_at` is null. -/
def endedChoice (s : OrchState) (evt : StreamEndedEvent) : Option (String × StreamStateM) :=
  let scanPick : Option (String × StreamStateM) :=
    s.streams.reverse.find? (fun e =>
      (match evt.container_id with
       | some c => if c = "" then true else decide (e.2.container_id = c)
       | none => true) && decide (e.2.ended_at = none))
  match evt.stream_id with
  | some sid =>
    if sid = "" then scanPick
    else match dictGet s.streams sid with
      | some st => some (sid, st)
      | none => scanPick
  | none => scanPick

/-- Model of `State.on_stream_ended`: pick a stream via `endedChoice`, stamp it with
`ended_at = now` and `status = "ended"`; return `none` and leave the state
unchanged when nothing matches. -/
def on_stream_ended (s : OrchState) (evt : StreamEndedEvent) (t : Nat) :
    Option StreamStateM × OrchState :=
  let now := nowUtc t
  match endedChoice s evt with
  | none => (none, s)
  | some (sid, st) =>
    let st' := { st with ended_at := some now, status := "ended" }
    (some st', { s with streams := dictSet s.streams sid st' })

/-- The ring-buffer trim of `State.append_stat`: append, then
`del arr[: len(arr) - STATS_HISTORY_MAX]` when over the bound. -/
def ring_append (arr : List StatSnap) (snap : StatSnap) (maxLen : Nat) : List StatSnap :=
  let arr1 := arr ++ [snap]
  if maxLen < arr1.length then arr1.drop (arr1.length - maxLen) else arr1

/-- Model of `State.append_stat` (in-memory effect; the appended `StatRow` is
persistence only). `maxLen` is `cfg.STATS_HISTORY_MAX`. -/
def append_stat (s : OrchState) (sid : String) (snap : StatSnap) (maxLen : Nat) : OrchState :=
  let arr := (dictGet s.stream_stats sid).getD []
  { s with stream_stats := dictSet s.stream_stats sid (ring_append arr snap maxLen) }

/-- The engine hydrated by `State.load_from_db` from one `EngineRow`: every
field is copied verbatim — in particular `first_seen`/`last_seen` keep
whatever timezone tag (or absence of one) the row carries. -/
def engineFromRow (e : EngineRowM) : EngineStateM :=
  ⟨e.engine_key, e.host, e.port, e.labels.getD [], e.first_seen, e.last_seen, []⟩

/-- The stream hydrated by `State.load_from_db` from one `StreamRow` with
`status == "started"`: `ended_at` is not passed, so it defaults to `None`;
`started_at` is copied verbatim. -/
def streamFromRow (r : StreamRowM) : StreamStateM :=
  ⟨r.id, r.key_type, r.key, r.engine_key, r.playback_session_id, r.stat_url,
   r.command_url, r.is_live, r.started_at, none, r.status⟩

/-- One iteration of the stream loop in `State.load_from_db`: store the
hydrated stream and link its id into its engine's `streams` list. -/
def loadStreamStep (s : OrchState) (r : StreamRowM) : OrchState :=
  let st := streamFromRow r
  let s1 := { s with streams := dictSet s.streams st.id st }
  match dictGet s1.engines r.engine_key with
  | none => s1
  | some eng =>
    if st.id ∈ eng.streams then s1
    else
      let eng2 := { eng with streams := eng.streams ++ [st.id] }
      { s1 with engines := dictSet s1.engines r.engine_key eng2 }

/-- Model of `State.load_from_db`: hydrate all engine rows, then all stream rows with
`status == "started"`. -/
def load_from_db (es : List EngineRowM) (rs : List StreamRowM) (s : OrchState) : OrchState :=
  let s1 := es.foldl
    (fun acc e => { acc with engines := dictSet acc.engines e.engine_key (engineFromRow e) }) s
  (rs.filter (fun r => decide (r.status = "started"))).foldl loadStreamStep s1

/-- One operation against the State store, with the wall-clock instant(s) it
observes and — for `load` — the database contents it reads. -/
inductive StateOp where
  | started (evt : StreamStartedEvent) (t : Nat)
  | ended (evt : StreamEndedEvent) (t : Nat)
  | stat (sid : String) (snap : StatSnap) (maxLen : Nat)
  | load (es : List EngineRowM) (rs : List StreamRowM)

def applyOp (s : OrchState) : StateOp → OrchState
  | StateOp.started evt t => (on_stream_started s evt t).2
  | StateOp.ended evt t => (on_stream_ended s evt t).2
  | StateOp.stat sid snap m => append_stat s sid snap m
  | StateOp.load es rs => load_from_db es rs s

def runOps (ops : List StateOp) : OrchState := ops.foldl applyOp initState

/-- The stream-status invariant of the spec: `ended_at ≠ null ⇔ status = "ended"`. -/
def streamInv (s : OrchState) : Prop :=
  ∀ e ∈ s.streams, (e.2.ended_at ≠ none ↔ e.2.status = "ended")

theorem forall_mem_dictSet {α : Type} {P : String × α → Prop} {m : List (String × α)}
    {k : String} {v : α} (hm : ∀ x ∈ m, P x) (hv : P (k, v)) :
    ∀ x ∈ dictSet m k v, P x :=
  fun x hx => (mem_dictSet hx).elim (fun h => h ▸ hv) (hm x)

theorem streamInv_started (s : OrchState) (evt : StreamStartedEvent) (t : Nat)
    (h : streamInv s) : streamInv (on_stream_started s evt t).2 := by
  have hstreams : ((on_stream_started s evt t).2).streams =
      dictSet s.streams (streamIdOf evt) (on_stream_started s evt t).1 := rfl
  intro e he
  rw [hstreams] at he
  refine forall_mem_dictSet h ?_ e he
  show ((on_stream_started s evt t).1.ended_at ≠ none ↔
    (on_stream_started s evt t).1.status = "ended")
  have h1 : (on_stream_started s evt t).1.ended_at = none := rfl
  have h2 : (on_stream_started s evt t).1.status = "started" := rfl
  rw [h1, h2]
  simp

theorem streamInv_ended (s : OrchState) (evt : StreamEndedEvent) (t : Nat)
    (h : streamInv s) : streamInv (on_stream_ended s evt t).2 := by
  unfold on_stream_ended
  cases hch : endedChoice s evt with
  | none => exact h
  | some pr =>
    obtain ⟨sid, st⟩ := pr
    intro e he
    refine forall_mem_dictSet h ?_ e he
    show (some (nowUtc t) ≠ none ↔ "ended" = "ended")
    simp

theorem streamInv_stat (s : OrchState) (sid : String) (snap : StatSnap) (m : Nat)
    (h : streamInv s) : streamInv (append_stat s sid snap m) := h

theorem loadStreamStep_inv (s : OrchState) (r : StreamRowM) (hr : r.status = "started")
    (h : streamInv s) : streamInv (loadStreamStep s r) := by
  have hstreams : ∀ s' : OrchState, (loadStreamStep s' r).streams =
      dictSet s'.streams (streamFromRow r).id (streamFromRow r) := by
    intro s'
    unfold loadStreamStep
    cases hg : dictGet s'.engines r.engine_key with
    | none => simp [hg]
    | some eng =>
      by_cases hmem : (streamFromRow r).id ∈ eng.streams <;> simp [hg, hmem]
  intro e he
  rw [hstreams] at he
  refine forall_mem_dictSet h ?_ e he
  show ((streamFromRow r).ended_at ≠ none ↔ (streamFromRow r).status = "ended")
  show ((none : Option PyDateTime) ≠ none ↔ r.status = "ended")
  rw [hr]
  simp

theorem streamInv_load (es : List EngineRowM) (rs : List StreamRowM) (s : OrchState)
    (h : streamInv s) : streamInv (load_from_db es rs s) := by
  unfold load_from_db
  have hengines : ∀ (es' : List EngineRowM) (s' : OrchState), streamInv s' →
      streamInv (es'.foldl
        (fun acc e => { acc with engines := dictSet acc.engines e.engine_key (engineFromRow e) })
        s') := by
    intro es'
    induction es' with
    | nil => intro s' hs'; exact hs'
    | cons e t ih => intro s' hs'; exact ih _ hs'
  have hstreams : ∀ (l : List StreamRowM) (s' : OrchState),
      (∀ r ∈ l, r.status = "started") → streamInv s' →
      streamInv (l.foldl loadStreamStep s') := by
    intro l
    induction l with
    | nil => intro s' _ hs'; exact hs'
    | cons r t ih =>
      intro s' hl hs'
      exact ih _ (fun x hx => hl x (List.mem_cons_of_mem _ hx))
        (loadStreamStep_inv s' r (hl r (List.mem_cons_self r t)) hs')
  refine hstreams _ _ ?_ (hengines es s h)
  intro r hr
  simpa using (List.mem_filter.mp hr).2

/-- C6: after any sequence of `on_stream_started`, `on_stream_ended`,
`append_stat` and `load_from_db` operations starting from the empty state,
every stream in the streams map satisfies `ended_at ≠ null ⇔ status = "ended"`. -/
theorem streams_ended_iff_status (ops : List StateOp) :
    ∀ e ∈ (runOps ops).streams, (e.2.ended_at ≠ none ↔ e.2.status = "ended") := by
  have key : ∀ (op : StateOp) (s : OrchState), streamInv s → streamInv (applyOp s op) := by
    intro op s hs
    cases op with
    | started evt t => exact streamInv_started s evt t hs
    | ended evt t => exact streamInv_ended s evt t hs
    | stat sid snap m => exact streamInv_stat s sid snap m hs
    | load es rs => exact streamInv_load es rs s hs
  have hfold : ∀ (l : List StateOp) (s : OrchState), streamInv s →
      streamInv (l.foldl applyOp s) := by
    intro l
    induction l with
    | nil => intro s hs; exact hs
    | cons op t ih => intro s hs; exact ih _ (key op s hs)
  exact hfold ops initState (fun e he => absurd he (List.not_mem_nil e))

/-- C7: one `append_stat` call, on any prior ring `arr` and any positive bound
`m = STATS_HISTORY_MAX` (config validation rejects values below 1): the new
ring is bounded by `m`, the appended sample is its last element, the new ring
is exactly the appended list with the oldest `len + 1 − m` samples dropped
from the front (a suffix of it), its length is `min (len + 1) m`, and the
stream's entry in the `stream_stats` map after `append_stat` is that ring. -/
theorem append_stat_ring (arr : List StatSnap) (snap : StatSnap) (m : Nat) (hm : 1 ≤ m) :
    (ring_append arr snap m).length ≤ m
    ∧ (ring_append arr snap m).getLast? = some snap
    ∧ ring_append arr snap m = (arr ++ [snap]).drop (arr.length + 1 - m)
    ∧ (ring_append arr snap m).length = min (arr.length + 1) m
    ∧ ring_append arr snap m <:+ arr ++ [snap]
    ∧ ∀ (s : OrchState) (sid : String),
        dictGet (append_stat s sid snap m).stream_stats sid =
          some (ring_append ((dictGet s.stream_stats sid).getD []) snap m) := by
  have hlen : (arr ++ [snap]).length = arr.length + 1 := by simp
  have heq : ring_append arr snap m = (arr ++ [snap]).drop (arr.length + 1 - m) := by
    unfold ring_append
    by_cases hc : m < (arr ++ [snap]).length
    · rw [if_pos hc, hlen]
    · rw [if_neg hc]
      rw [hlen] at hc
      have h0 : arr.length + 1 - m = 0 := by omega
      rw [h0, List.drop_zero]
  have hlast : (ring_append arr snap m).getLast? = some snap := by
    rw [heq]
    by_cases hc : m < arr.length + 1
    · have hk : arr.length + 1 - m ≤ arr.length := by omega
      rw [List.drop_append_of_le_length hk, List.getLast?_concat]
    · have h0 : arr.length + 1 - m = 0 := by omega
      rw [h0, List.drop_zero, List.getLast?_concat]
  have hL : (ring_append arr snap m).length = min (arr.length + 1) m := by
    rw [heq, List.length_drop, hlen]
    omega
  refine ⟨by rw [hL]; omega, hlast, heq, hL, heq ▸ List.drop_suffix _ _, ?_⟩
  intro s sid
  show dictGet
    (dictSet s.stream_stats sid (ring_append ((dictGet s.stream_stats sid).getD []) snap m))
    sid = some (ring_append ((dictGet s.stream_stats sid).getD []) snap m)
  exact dictGet_dictSet_self _ _ _

/-- A concrete stat sample. -/
def snapA : StatSnap := ⟨⟨0, some 0⟩, none, none, none, none, none, none⟩

/-- Witness for `append_stat_ring` at `arr = []`, `m = 1`. -/
theorem append_stat_ring_witness :
    (ring_append [] snapA 1).length ≤ 1
    ∧ (ring_append [] snapA 1).getLast? = some snapA
    ∧ ring_append [] snapA 1 = (([] : List StatSnap) ++ [snapA]).drop
        (([] : List StatSnap).length + 1 - 1)
    ∧ (ring_append [] snapA 1).length = min (([] : List StatSnap).length + 1) 1
    ∧ ring_append [] snapA 1 <:+ ([] : List StatSnap) ++ [snapA]
    ∧ ∀ (s : OrchState) (sid : String),
        dictGet (append_stat s sid snapA 1).stream_stats sid =
          some (ring_append ((dictGet s.stream_stats sid).getD []) snapA 1) :=
  append_stat_ring [] snapA 1 (by decide)

/-- A stream-started event whose labels carry `stream_id` mapped to the empty
string. -/
def evtEmptySid : StreamStartedEvent :=
  ⟨some "c1", ⟨"127.0.0.1", 40000⟩, ⟨"content_id", "abc"⟩,
   ⟨"ps1", "http://e/stat", "http://e/cmd", 1⟩, [("stream_id", "")]⟩

/-- C5 counterexample: the event's labels map contains the key `stream_id`
(mapped to `""`), yet the stream created by `on_stream_started` is NOT given
that value as its id — the Python `or` discards the falsy empty string and the
derived id `key|playback_session_id` is used instead; no stream is stored
under the empty id. -/
theorem stream_id_empty_label_ignored :
    dictGet evtEmptySid.labels "stream_id" = some ""
    ∧ streamIdOf evtEmptySid = "abc|ps1"
    ∧ (on_stream_started initState evtEmptySid 0).1.id ≠ ""
    ∧ dictGet (on_stream_started initState evtEmptySid 0).2.streams "" = none := by decide

/-- C5 (amended): the id of the stream created by `on_stream_started` is
`streamIdOf evt`; it equals the event's `labels["stream_id"]` whenever that
key is present with a NON-EMPTY value, and equals
`key ++ "|" ++ playback_session_id` otherwise (key absent, or present but
mapped to the empty string, which Python's `or` treats as missing). -/
theorem stream_id_derivation (evt : StreamStartedEvent) (t : Nat) (s : OrchState) :
    (on_stream_started s evt t).1.id = streamIdOf evt
    ∧ (∀ v, dictGet evt.labels "stream_id" = some v → v ≠ "" → streamIdOf evt = v)
    ∧ ((dictGet evt.labels "stream_id" = none ∨ dictGet evt.labels "stream_id" = some "") →
        streamIdOf evt = evt.stream.key ++ "|" ++ evt.session.playback_session_id) := by
  refine ⟨rfl, ?_, ?_⟩
  · intro v hv hne
    have hlab : ¬ evt.labels = [] := by
      intro h0
      rw [h0] at hv
      simp [dictGet] at hv
    unfold streamIdOf
    simp [hlab, hv, hne]
  · intro hcase
    unfold streamIdOf
    by_cases hlab : evt.labels = []
    · simp [hlab]
    · rcases hcase with hc | hc <;> simp [hlab, hc]

/-- A stream-started event with a non-empty `stream_id` label. -/
def evtNamedSid : StreamStartedEvent :=
  ⟨some "c1", ⟨"127.0.0.1", 40000⟩, ⟨"content_id", "abc"⟩,
   ⟨"ps1", "http://e/stat", "http://e/cmd", 1⟩, [("stream_id", "sid-1")]⟩

/-- Witness for `stream_id_derivation` in both directions. -/
theorem stream_id_derivation_witness :
    streamIdOf evtNamedSid = "sid-1" ∧ streamIdOf evtEmptySid = "abc|ps1" :=
  ⟨(stream_id_derivation evtNamedSid 0 initState).2.1 "sid-1" rfl (by decide),
   (stream_id_derivation evtEmptySid 0 initState).2.2 (Or.inr rfl)⟩

/-- A naive timestamp, as a `DateTime` column without timezone returns. -/
def naiveDT : PyDateTime := ⟨1700000000, none⟩

/-- An engine row read back with naive `first_seen`/`last_seen`. -/
def engineRowNaive : EngineRowM :=
  ⟨"eng1", some "eng1", "127.0.0.1", 19000, none, naiveDT, naiveDT⟩

/-- A started stream row read back with a naive `started_at`. -/
def streamRowNaive : StreamRowM :=
  ⟨"abc|ps1", "eng1", "content_id", "abc", "ps1", "http://e/stat", "http://e/cmd",
   true, naiveDT, none, "started"⟩

/-- C1 (code bug): `State.load_from_db` copies row timestamps verbatim — on a
database whose engine row carries naive `first_seen`/`last_seen` and whose
started stream row carries a naive `started_at`, the hydrated in-memory
records keep the naive timestamps (`tz = none`); no promotion to UTC happens,
contradicting the spec's "Promote every naive timestamp to UTC" and the
repository's own datetime tests, which describe the promotion as living in
`load_from_db`. -/
theorem load_from_db_keeps_naive :
    engineRowNaive.first_seen.tz = none
    ∧ streamRowNaive.started_at.tz = none
    ∧ (∃ e, dictGet (load_from_db [engineRowNaive] [streamRowNaive] initState).engines "eng1"
          = some e ∧ e.first_seen.tz = none ∧ e.last_seen.tz = none)
    ∧ (∃ st, dictGet (load_from_db [engineRowNaive] [streamRowNaive] initState).streams "abc|ps1"
          = some st ∧ st.started_at.tz = none) := by decide

/-!
## Provisioner (`app/services/provisioner.py`)
-/

def ACESTREAM_LABEL_HTTP : String := "acestream.http_port"

def ACESTREAM_LABEL_HTTPS : String := "acestream.https_port"

def HOST_LABEL_HTTP : String := "host.http_port"

def HOST_LABEL_HTTPS : String := "host.https_port"

/-- The `CONF` value computed in `start_acestream`: the caller's `CONF`
verbatim when the key is present in the caller env (even empty), else the
default three lines joined by newlines. -/
def final_conf (reqEnv : List (String × String)) (cHttp cHttps : Nat) : String :=
  match dictGet reqEnv "CONF" with
  | some v => v
  | none =>
    String.intercalate "\n"
      ["--http-port=" ++ toString cHttp, "--https-port=" ++ toString cHttps, "--bind-all"]

/-- The container env composed in `start_acestream`:
`{**req.env, "CONF": final_conf, "HTTP_PORT": str(c_http),
"HTTPS_PORT": str(c_https), "BIND_ALL": "true"}`. -/
def ace_env (reqEnv : List (String × String)) (cHttp cHttps : Nat) : List (String × String) :=
  dictSet (dictSet (dictSet (dictSet reqEnv "CONF" (final_conf reqEnv cHttp cHttps))
    "HTTP_PORT" (toString cHttp)) "HTTPS_PORT" (toString cHttps)) "BIND_ALL" "true"

/-- C4: in the env handed to the AceStream container, `CONF` is the caller's
value verbatim when the caller supplied the key (even mapped to `""`), else
the default `--http-port=<c_http>\n--https-port=<c_https>\n--bind-all`;
`HTTP_PORT`, `HTTPS_PORT` and `BIND_ALL` always carry the orchestrator's
values; every other caller key is preserved unchanged. -/
theorem ace_env_composition (reqEnv : List (String × String)) (cHttp cHttps : Nat) :
    (∀ v, dictGet reqEnv "CONF" = some v → dictGet (ace_env reqEnv cHttp cHttps) "CONF" = some v)
    ∧ (dictGet reqEnv "CONF" = none →
        dictGet (ace_env reqEnv cHttp cHttps) "CONF" = some (String.intercalate "\n"
          ["--http-port=" ++ toString cHttp, "--https-port=" ++ toString cHttps, "--bind-all"]))
    ∧ dictGet (ace_env reqEnv cHttp cHttps) "HTTP_PORT" = some (toString cHttp)
    ∧ dictGet (ace_env reqEnv cHttp cHttps) "HTTPS_PORT" = some (toString cHttps)
    ∧ dictGet (ace_env reqEnv cHttp cHttps) "BIND_ALL" = some "true"
    ∧ (∀ k, k ≠ "CONF" → k ≠ "HTTP_PORT" → k ≠ "HTTPS_PORT" → k ≠ "BIND_ALL" →
        dictGet (ace_env reqEnv cHttp cHttps) k = dictGet reqEnv k) := by
  have hconf : dictGet (ace_env reqEnv cHttp cHttps) "CONF" =
      some (final_conf reqEnv cHttp cHttps) := by
    unfold ace_env
    rw [dictGet_dictSet_ne _ _ _ _ (by decide), dictGet_dictSet_ne _ _ _ _ (by decide),
      dictGet_dictSet_ne _ _ _ _ (by decide), dictGet_dictSet_self]
  refine ⟨?_, ?_, ?_, ?_, ?_, ?_⟩
  · intro v hv
    rw [hconf]
    unfold final_conf
    rw [hv]
  · intro hnone
    rw [hconf]
    unfold final_conf
    rw [hnone]
  · unfold ace_env
    rw [dictGet_dictSet_ne _ _ _ _ (by decide), dictGet_dictSet_ne _ _ _ _ (by decide),
      dictGet_dictSet_self]
  · unfold ace_env
    rw [dictGet_dictSet_ne _ _ _ _ (by decide), dictGet_dictSet_self]
  · unfold ace_env
    rw [dictGet_dictSet_self]
  · intro k h1 h2 h3 h4
    unfold ace_env
    rw [dictGet_dictSet_ne _ _ _ _ h4, dictGet_dictSet_ne _ _ _ _ h3,
      dictGet_dictSet_ne _ _ _ _ h2, dictGet_dictSet_ne _ _ _ _ h1]

/-- Witness for `ace_env_composition`: an empty caller `CONF` passes through
verbatim and a foreign key survives; the orchestrator's ports override. -/
theorem ace_env_composition_witness :
    dictGet (ace_env [("CONF", ""), ("FOO", "bar"), ("HTTP_PORT", "9")] 40000 45000) "CONF"
      = some ""
    ∧ dictGet (ace_env [("CONF", ""), ("FOO", "bar"), ("HTTP_PORT", "9")] 40000 45000) "FOO"
      = some "bar"
    ∧ dictGet (ace_env [("CONF", ""), ("FOO", "bar"), ("HTTP_PORT", "9")] 40000 45000)
        "HTTP_PORT" = some (toString 40000) :=
  ⟨(ace_env_composition [("CONF", ""), ("FOO", "bar"), ("HTTP_PORT", "9")] 40000 45000).1
      "" rfl,
   (ace_env_composition [("CONF", ""), ("FOO", "bar"), ("HTTP_PORT", "9")] 40000 45000).2.2.2.2.2
      "FOO" (by decide) (by decide) (by decide) (by decide),
   (ace_env_composition [("CONF", ""), ("FOO", "bar"), ("HTTP_PORT", "9")] 40000 45000).2.2.1⟩

/-- The full `PortAllocator`: three sub-allocators. -/
structure AllocState where
  host : SubAlloc
  http : SubAlloc
  https : SubAlloc
  deriving DecidableEq

/-- Model of `PortAllocator.alloc_host`. -/
def alloc_host (a : AllocState) : Option (Nat × AllocState) :=
  match allocSub a.host with
  | none => none
  | some (p, sh) => some (p, { a with host := sh })

/-- Model of `PortAllocator.alloc_http`. -/
def alloc_http (a : AllocState) : Option (Nat × AllocState) :=
  match allocSub a.http with
  | none => none
  | some (p, sh) => some (p, { a with http := sh })

/-- Model of `PortAllocator.alloc_https(avoid)`. Fuel 2 covers every terminating
successful run of the `while True` loop on states the allocator constructs
(see `alloc_https_terminates`); `none` covers both `NoFreePort` and the
diverging case. -/
def alloc_https (a : AllocState) (avoid : Option Nat) : Option (Nat × AllocState) :=
  match alloc_https_fuel avoid 2 a.https with
  | some (some (p, sh)) => some (p, { a with https := sh })
  | _ => none

/-- The port-allocation slice of `start_acestream` (provisioner.py lines
102-137): `host_http := req.host_port or alloc.alloc_host()` (Python `or`:
`None` and `0` are falsy), then `c_http := alloc_http()`, then
`c_https := alloc_https(avoid=c_http)`, and — only when `ACE_MAP_HTTPS` is
on — one more `alloc_host()` for the HTTPS host binding. Returns the chosen
ports and the allocator state after them, `none` when an allocation fails. -/
def start_ace_ports (a : AllocState) (reqHostPort : Option Nat) (mapHttps : Bool) :
    Option ((Nat × Nat × Nat × Option Nat) × AllocState) :=
  let step1 : Option (Nat × AllocState) :=
    match reqHostPort with
    | some p => if p = 0 then alloc_host a else some (p, a)
    | none => alloc_host a
  match step1 with
  | none => none
  | some (hostHttp, a1) =>
    match alloc_http a1 with
    | none => none
    | some (cHttp, a2) =>
      match alloc_https a2 (some cHttp) with
      | none => none
      | some (cHttps, a3) =>
        if mapHttps then
          match alloc_host a3 with
          | none => none
          | some (hostHttps, a4) => some ((hostHttp, cHttp, cHttps, some hostHttps), a4)
        else some ((hostHttp, cHttp, cHttps, none), a3)

/-- C9: when `start_acestream` is given a truthy fixed `host_port` (and HTTPS
host mapping is off, its config default), the returned host port is exactly
the fixed one and the allocator's host sub-allocator — used set AND cursor —
is untouched: the fixed port is neither allocated nor reserved. Consequently
a later `alloc_host` whose probe reaches that port while it is unused returns
that very port again. -/
theorem fixed_host_port_not_reserved (a : AllocState) (p : Nat) (hp : p ≠ 0)
    (res : (Nat × Nat × Nat × Option Nat) × AllocState)
    (h : start_ace_ports a (some p) false = some res) :
    res.1.1 = p ∧ res.2.host = a.host
    ∧ (p ∉ a.host.used → p ∉ res.2.host.used)
    ∧ (a.host.lo ≤ p → p ≤ a.host.hi → p ∉ a.host.used → a.host.next = p →
        ∃ a2, alloc_host res.2 = some (p, a2)) := by
  unfold start_ace_ports at h
  simp only [if_neg hp] at h
  cases h1 : alloc_http a with
  | none => simp [h1] at h
  | some pr1 =>
    obtain ⟨cHttp, a2⟩ := pr1
    simp only [h1] at h
    cases h2 : alloc_https a2 (some cHttp) with
    | none => simp [h2] at h
    | some pr2 =>
      obtain ⟨cHttps, a3⟩ := pr2
      simp only [h2] at h
      rw [if_neg (by simp)] at h
      have hres : res = ((p, cHttp, cHttps, none), a3) := (Option.some.inj h).symm
      have hh2 : a2.host = a.host := by
        unfold alloc_http at h1
        cases hs : allocSub a.http with
        | none => rw [hs] at h1; exact Option.noConfusion h1
        | some pr =>
          rw [hs] at h1
          have ha2 : ({ host := a.host, http := pr.2, https := a.https } : AllocState) = a2 :=
            congrArg Prod.snd (Option.some.inj h1)
          rw [← ha2]
      have hh3 : a3.host = a.host := by
        unfold alloc_https at h2
        cases hs : alloc_https_fuel (some cHttp) 2 a2.https with
        | none => rw [hs] at h2; exact Option.noConfusion h2
        | some r =>
          cases r with
          | none => rw [hs] at h2; exact Option.noConfusion h2
          | some pr =>
            obtain ⟨q, sh⟩ := pr
            rw [hs] at h2
            have ha3 : ({ host := a2.host, http := a2.http, https := sh } : AllocState) = a3 :=
              congrArg Prod.snd (Option.some.inj h2)
            rw [← ha3]
            exact hh2
      subst hres
      refine ⟨rfl, hh3, fun hnot => by rw [hh3]; exact hnot, ?_⟩
      intro hlo hhi hfree hnext
      have hrun : nextInRun a3.host = some p := by
        rw [hh3]
        rw [← hnext] at hfree ⊢
        exact next_in_first a.host (hnext ▸ hlo) (hnext ▸ hhi) hfree
      exact ⟨_, by unfold alloc_host allocSub; rw [hrun]⟩

/-- A fresh allocator over the default configured ranges. -/
def allocA : AllocState :=
  ⟨⟨19000, 19999, 19000, ∅⟩, ⟨40000, 44999, 40000, ∅⟩, ⟨45000, 49999, 45000, ∅⟩⟩

/-- The outcome of `start_ace_ports allocA (some 19000) false`. -/
def allocARes : (Nat × Nat × Nat × Option Nat) × AllocState :=
  ((19000, 40000, 45000, none),
   ⟨⟨19000, 19999, 19000, ∅⟩, ⟨40000, 44999, 40001, insert 40000 ∅⟩,
    ⟨45000, 49999, 45001, insert 45000 ∅⟩⟩)

/-- Witness for `fixed_host_port_not_reserved`: fixed host port 19000 on a
fresh allocator; the very next `alloc_host` hands out 19000 again. -/
theorem fixed_host_port_not_reserved_witness :
    allocARes.1.1 = 19000 ∧ allocARes.2.host = allocA.host
    ∧ ∃ a2, alloc_host allocARes.2 = some (19000, a2) :=
  let H := fixed_host_port_not_reserved allocA 19000 (by decide) allocARes (by decide)
  ⟨H.1, H.2.1, H.2.2.2 (by decide) (by decide) (by decide) (by decide)⟩

/-!
## Autoscaler scale-down vs teardown (`app/services/autoscaler.py`,
`app/services/provisioner.py`)
-/

/-- A container as seen through the runtime adapter: id, status, labels, and
the `NetworkSettings.Ports` mapping collapsed to `"port/tcp" ↦ HostPort` of
the first binding. -/
structure ContainerV where
  id : String
  status : String
  labels : List (String × String)
  netPorts : List (String × String)
  deriving DecidableEq

/-- The runtime/allocator commands issued by the code paths under comparison. -/
inductive RtCmd where
  | startC : RtCmd
  | stopC (id : String) : RtCmd
  | removeC (id : String) : RtCmd
  | freeHost (p : Option Nat) : RtCmd
  | freeHttp (p : Option Nat) : RtCmd
  | freeHttps (p : Option Nat) : RtCmd
  deriving DecidableEq

/-- Effect of one command on the allocator: `free_*` discard from the used set
(`None` is a no-op, as in `PortAllocator.free_*`); container commands do not
touch the allocator. -/
def applyCmdAlloc (a : AllocState) : RtCmd → AllocState
  | RtCmd.freeHost po =>
    match po with
    | none => a
    | some p => { a with host := { a.host with used := a.host.used.erase p } }
  | RtCmd.freeHttp po =>
    match po with
    | none => a
    | some p => { a with http := { a.http with used := a.http.used.erase p } }
  | RtCmd.freeHttps po =>
    match po with
    | none => a
    | some p => { a with https := { a.https with used := a.https.used.erase p } }
  | _ => a

def isFreeCmd : RtCmd → Bool
  | RtCmd.freeHost _ => true
  | RtCmd.freeHttp _ => true
  | RtCmd.freeHttps _ => true
  | _ => false

/-- The command trace of `scale_to(demand)`: clamp the demand to
`[MIN_REPLICAS, MAX_REPLICAS]`; on a deficit start containers, on an excess
stop+remove `running[desired:]` directly — no `free_*` call appears anywhere
in `scale_to`. -/
def scale_to_trace (minR maxR demand : Nat) (cs : List ContainerV) : List RtCmd :=
  let desired := min (max minR demand) maxR
  let running := cs.filter (fun c => decide (c.status = "running"))
  if running.length < desired then List.replicate (desired - running.length) RtCmd.startC
  else if desired < running.length then
    (running.drop desired).flatMap (fun c => [RtCmd.stopC c.id, RtCmd.removeC c.id])
  else []

/-- The `free_*` calls of `_release_ports_from_labels` for one label key of
the `hp = labels.get(k); free(int(hp) if hp else None)` shape: a truthy value
that fails `int()` aborts its try-block with no call; a falsy one frees
`None` (a no-op). -/
def releaseBlockA (labels : List (String × String)) (k : String)
    (mk : Option Nat → RtCmd) : List RtCmd :=
  match dictGet labels k with
  | none => [mk none]
  | some s =>
    if s = "" then [mk none]
    else
      match pyInt? s with
      | some n => [mk (some n)]
      | none => []

/-- The `free_*` calls of the `if labels.get(k): free(int(...))` shape
(the `host.https_port` block): nothing at all when the value is falsy. -/
def releaseBlockB (labels : List (String × String)) (k : String)
    (mk : Option Nat → RtCmd) : List RtCmd :=
  match dictGet labels k with
  | none => []
  | some s =>
    if s = "" then []
    else
      match pyInt? s with
      | some n => [mk (some n)]
      | none => []

/-- The allocator calls of `_release_ports_from_labels(labels)`, in order. -/
def release_ports_trace (labels : List (String × String)) : List RtCmd :=
  releaseBlockA labels HOST_LABEL_HTTP RtCmd.freeHost
    ++ releaseBlockB labels HOST_LABEL_HTTPS RtCmd.freeHost
    ++ releaseBlockA labels ACESTREAM_LABEL_HTTP RtCmd.freeHttp
    ++ releaseBlockA labels ACESTREAM_LABEL_HTTPS RtCmd.freeHttps

/-- The command trace of the teardown path `stop_container(id)`: stop, release
the ports recorded in the labels, remove. -/
def stop_container_trace (id : String) (labels : List (String × String)) : List RtCmd :=
  RtCmd.stopC id :: (release_ports_trace labels ++ [RtCmd.removeC id])

/-- C10: when the running managed-container count exceeds the clamped desired
count, `scale_to` emits only stop/remove commands for the tail
`running[desired:]` — its trace contains no `free_*` command and leaves all
three used sets (indeed the whole allocator) unchanged — whereas the
`stop_container` teardown path does free a port recorded under
`host.http_port` in a removed container's labels. -/
theorem scale_down_keeps_ports (minR maxR demand : Nat) (cs : List ContainerV) (a : AllocState)
    (h : min (max minR demand) maxR <
      (cs.filter (fun c => decide (c.status = "running"))).length) :
    ((scale_to_trace minR maxR demand cs).foldl applyCmdAlloc a = a)
    ∧ (∀ c ∈ scale_to_trace minR maxR demand cs, isFreeCmd c = false)
    ∧ (scale_to_trace minR maxR demand cs =
        ((cs.filter (fun c => decide (c.status = "running"))).drop
          (min (max minR demand) maxR)).flatMap
            (fun c => [RtCmd.stopC c.id, RtCmd.removeC c.id]))
    ∧ (∀ id labels s n, dictGet labels HOST_LABEL_HTTP = some s → s ≠ "" → pyInt? s = some n →
        RtCmd.freeHost (some n) ∈ stop_container_trace id labels
        ∧ ∀ b : AllocState,
            (applyCmdAlloc b (RtCmd.freeHost (some n))).host.used = b.host.used.erase n) := by
  have htrace : scale_to_trace minR maxR demand cs =
      ((cs.filter (fun c => decide (c.status = "running"))).drop
        (min (max minR demand) maxR)).flatMap
          (fun c => [RtCmd.stopC c.id, RtCmd.removeC c.id]) := by
    unfold scale_to_trace
    rw [if_neg (by omega), if_pos h]
  have hnofree : ∀ c ∈ scale_to_trace minR maxR demand cs, isFreeCmd c = false := by
    rw [htrace]
    intro c hc
    obtain ⟨x, _, hx⟩ := List.mem_flatMap.mp hc
    rcases List.mem_cons.mp hx with hx | hx
    · rw [hx]; rfl
    · rcases List.mem_cons.mp hx with hx | hx
      · rw [hx]; rfl
      · cases hx
  have hfold : ∀ (l : List RtCmd) (b : AllocState), (∀ c ∈ l, isFreeCmd c = false) →
      l.foldl applyCmdAlloc b = b := by
    intro l
    induction l with
    | nil => intro b _; rfl
    | cons c t ih =>
      intro b hl
      have hc : applyCmdAlloc b c = b := by
        cases c with
        | startC => rfl
        | stopC id => rfl
        | removeC id => rfl
        | freeHost po => exact absurd (hl _ (List.mem_cons_self _ _)) (by simp [isFreeCmd])
        | freeHttp po => exact absurd (hl _ (List.mem_cons_self _ _)) (by simp [isFreeCmd])
        | freeHttps po => exact absurd (hl _ (List.mem_cons_self _ _)) (by simp [isFreeCmd])
      rw [List.foldl_cons, hc]
      exact ih b (fun x hx => hl x (List.mem_cons_of_mem _ hx))
  refine ⟨hfold _ a hnofree, hnofree, htrace, ?_⟩
  intro id labels s n hs hne hparse
  constructor
  · unfold stop_container_trace release_ports_trace releaseBlockA
    simp only [hs, if_neg hne, hparse]
    simp
  · intro b
    rfl

/-- Witness for `scale_down_keeps_ports`: one running container above a
desired count of 0; scale-down leaves the allocator unchanged while the
teardown trace for the same labels contains the `free_host` call. -/
theorem scale_down_keeps_ports_witness :
    ((scale_to_trace 0 5 0 [⟨"c1", "running", [("host.http_port", "19000")], []⟩]).foldl
        applyCmdAlloc allocA = allocA)
    ∧ RtCmd.freeHost (some 19000) ∈
        stop_container_trace "c1" [("host.http_port", "19000")] :=
  let H := scale_down_keeps_ports 0 5 0
    [⟨"c1", "running", [("host.http_port", "19000")], []⟩] allocA (by decide)
  ⟨H.1, (H.2.2.2 "c1" [("host.http_port", "19000")] "19000" 19000 (by decide) (by decide)
    (by decide)).1⟩

/-!
## Reindexer (`app/services/reindex.py`)
-/

/-- The second reserve of one `try` block in `reindex_existing`: it runs only
if the first line of the block did not raise; absent key → no call, present
but unparseable → the raise is caught, no reserve. -/
def parseAfter (lbl : List (String × String)) (k : String) : Option Nat :=
  match dictGet lbl k with
  | none => none
  | some s => pyInt? s

/-- The two reserves attempted by one `try: if k1 in lbl: reserve(int(lbl[k1]));
if k2 in lbl: reserve(int(lbl[k2])) except: pass` block: a failing `int()` on
the first key skips the second line entirely. -/
def try_reserve_pair (lbl : List (String × String)) (k1 k2 : String) :
    Option Nat × Option Nat :=
  match dictGet lbl k1 with
  | none => (none, parseAfter lbl k2)
  | some s =>
    match pyInt? s with
    | none => (none, none)
    | some n => (some n, parseAfter lbl k2)

/-- Model of `reserve_*`: idempotently mark used, cursor untouched. -/
def insertUsed (s : SubAlloc) (o : Option Nat) : SubAlloc :=
  match o with
  | none => s
  | some n => { s with used := insert n s.used }

/-- Model of `int(lbl.get("host.http_port") or 0)` at reindex.py line 21: missing or
empty label → 0; a non-digit value raises out of `reindex_existing`
(modelled as `none`). -/
def hostPortLabel (lbl : List (String × String)) : Option Nat :=
  match dictGet lbl HOST_LABEL_HTTP with
  | none => some 0
  | some s => if s = "" then some 0 else pyInt? s

/-- The port-recovery fallback of reindex.py lines 24-39 for a running
container with `port == 0`: look the `acestream.http_port` label up in the
runtime's port map; any failure is swallowed and yields 0. -/
def recoveredPort (c : ContainerV) : Nat :=
  if c.status = "running" then
    match dictGet c.labels ACESTREAM_LABEL_HTTP with
    | none => 0
    | some ap =>
      if ap = "" then 0
      else
        match dictGet c.netPorts (ap ++ "/tcp") with
        | none => 0
        | some hp => (pyInt? hp).getD 0
  else 0

/-- The allocator effect of processing one container in `reindex_existing`:
the two try-blocks of reserves (acestream ports into http/https, both host
ports into the host set). -/
def reindexAlloc (a : AllocState) (c : ContainerV) : AllocState :=
  { a with
      http := insertUsed a.http
        (try_reserve_pair c.labels ACESTREAM_LABEL_HTTP ACESTREAM_LABEL_HTTPS).1
      https := insertUsed a.https
        (try_reserve_pair c.labels ACESTREAM_LABEL_HTTP ACESTREAM_LABEL_HTTPS).2
      host := insertUsed
        (insertUsed a.host (try_reserve_pair c.labels HOST_LABEL_HTTP HOST_LABEL_HTTPS).1)
        (try_reserve_pair c.labels HOST_LABEL_HTTP HOST_LABEL_HTTPS).2 }

/-- The engine synthesised by `reindex_existing` for an unknown container:
`host = "127.0.0.1"`, port from the `host.http_port` label or — when that is
0 — recovered from the runtime's port map. -/
def mkReindexEngine (now : PyDateTime) (c : ContainerV) (p0 : Nat) : EngineStateM :=
  ⟨c.id, "127.0.0.1", if p0 = 0 then recoveredPort c else p0, c.labels, now, now, []⟩

/-- One iteration of `reindex_existing`'s loop: reserve the labelled ports,
then synthesise an engine when the container id is unknown to the state store.
The `Bool` is false when the unguarded `int(...)` of line 21 raises, aborting
the whole loop. -/
def reindex_step (now : PyDateTime) (a : AllocState) (st : OrchState) (c : ContainerV) :
    AllocState × OrchState × Bool :=
  let a1 := reindexAlloc a c
  if (dictGet st.engines c.id).isSome then (a1, st, true)
  else
    match hostPortLabel c.labels with
    | none => (a1, st, false)
    | some p0 =>
      (a1, { st with engines := dictSet st.engines c.id (mkReindexEngine now c p0) }, true)

/-- Model of `reindex_existing()` over the listing of managed containers, stopping at
the first aborting step (a raised `ValueError` propagates). -/
def reindex_existing (now : PyDateTime) :
    List ContainerV → AllocState → OrchState → AllocState × OrchState
  | [], a, st => (a, st)
  | c :: t, a, st =>
    let r := reindex_step now a st c
    if r.2.2 then reindex_existing now t r.1 r.2.1 else (r.1, r.2.1)

theorem reindex_existing_cons_true (now : PyDateTime) (c : ContainerV) (t : List ContainerV)
    (a : AllocState) (st : OrchState) (a1 : AllocState) (st1 : OrchState)
    (h : reindex_step now a st c = (a1, st1, true)) :
    reindex_existing now (c :: t) a st = reindex_existing now t a1 st1 := by
  simp only [reindex_existing]
  rw [h]
  rfl

theorem reindex_existing_cons_false (now : PyDateTime) (c : ContainerV) (t : List ContainerV)
    (a : AllocState) (st : OrchState) (a1 : AllocState) (st1 : OrchState)
    (h : reindex_step now a st c = (a1, st1, false)) :
    reindex_existing now (c :: t) a st = (a1, st1) := by
  simp only [reindex_existing]
  rw [h]
  rfl

theorem insertUsed_mem (s : SubAlloc) (o : Option Nat) :
    ∀ n, o = some n → n ∈ (insertUsed s o).used := by
  intro n hn
  subst hn
  exact Finset.mem_insert_self n s.used

theorem insertUsed_grows (s : SubAlloc) (o : Option Nat) : s.used ⊆ (insertUsed s o).used := by
  cases o with
  | none => exact Finset.Subset.refl _
  | some n => exact Finset.subset_insert n s.used

theorem insertUsed_id (s : SubAlloc) (o : Option Nat) (h : ∀ n, o = some n → n ∈ s.used) :
    insertUsed s o = s := by
  cases o with
  | none => rfl
  | some n =>
    show { s with used := insert n s.used } = s
    rw [Finset.insert_eq_self.mpr (h n rfl)]

/-- All reserves of one container are already present in the allocator. -/
def ReservesDone (c : ContainerV) (a : AllocState) : Prop :=
  (∀ n, (try_reserve_pair c.labels ACESTREAM_LABEL_HTTP ACESTREAM_LABEL_HTTPS).1 = some n →
    n ∈ a.http.used)
  ∧ (∀ n, (try_reserve_pair c.labels ACESTREAM_LABEL_HTTP ACESTREAM_LABEL_HTTPS).2 = some n →
    n ∈ a.https.used)
  ∧ (∀ n, (try_reserve_pair c.labels HOST_LABEL_HTTP HOST_LABEL_HTTPS).1 = some n →
    n ∈ a.host.used)
  ∧ (∀ n, (try_reserve_pair c.labels HOST_LABEL_HTTP HOST_LABEL_HTTPS).2 = some n →
    n ∈ a.host.used)

theorem reindexAlloc_done (a : AllocState) (c : ContainerV) :
    ReservesDone c (reindexAlloc a c) := by
  refine ⟨?_, ?_, ?_, ?_⟩
  · intro n hn
    exact insertUsed_mem a.http _ n hn
  · intro n hn
    exact insertUsed_mem a.https _ n hn
  · intro n hn
    exact insertUsed_grows _ _ (insertUsed_mem a.host _ n hn)
  · intro n hn
    exact insertUsed_mem (insertUsed a.host _) _ n hn

theorem reindexAlloc_id (a : AllocState) (c : ContainerV) (h : ReservesDone c a) :
    reindexAlloc a c = a := by
  obtain ⟨h1, h2, h3, h4⟩ := h
  unfold reindexAlloc
  rw [insertUsed_id a.http _ h1, insertUsed_id a.https _ h2, insertUsed_id a.host _ h3,
    insertUsed_id a.host _ h4]

theorem reindexAlloc_grows (a : AllocState) (c : ContainerV) :
    a.http.used ⊆ (reindexAlloc a c).http.used
    ∧ a.https.used ⊆ (reindexAlloc a c).https.used
    ∧ a.host.used ⊆ (reindexAlloc a c).host.used :=
  ⟨insertUsed_grows _ _, insertUsed_grows _ _,
   (insertUsed_grows _ _).trans (insertUsed_grows _ _)⟩

/-- Monotone growth of allocator used sets and engine-map keys. -/
def StateGrows (a a' : AllocState) (st st' : OrchState) : Prop :=
  a.http.used ⊆ a'.http.used ∧ a.https.used ⊆ a'.https.used ∧ a.host.used ⊆ a'.host.used
  ∧ ∀ k, (dictGet st.engines k).isSome = true → (dictGet st'.engines k).isSome = true

theorem stateGrows_refl (a : AllocState) (st : OrchState) : StateGrows a a st st :=
  ⟨Finset.Subset.refl _, Finset.Subset.refl _, Finset.Subset.refl _, fun _ h => h⟩

theorem stateGrows_trans {a a' a'' : AllocState} {st st' st'' : OrchState}
    (h1 : StateGrows a a' st st') (h2 : StateGrows a' a'' st' st'') :
    StateGrows a a'' st st'' :=
  ⟨h1.1.trans h2.1, h1.2.1.trans h2.2.1, h1.2.2.1.trans h2.2.2.1,
   fun k hk => h2.2.2.2 k (h1.2.2.2 k hk)⟩

theorem reindex_step_cases (now : PyDateTime) (a : AllocState) (st : OrchState) (c : ContainerV)
    (a1 : AllocState) (st1 : OrchState) (ok : Bool)
    (h : reindex_step now a st c = (a1, st1, ok)) :
    a1 = reindexAlloc a c
    ∧ ((ok = true ∧ (dictGet st.engines c.id).isSome = true ∧ st1 = st)
       ∨ (ok = false ∧ (dictGet st.engines c.id).isSome = false
          ∧ hostPortLabel c.labels = none ∧ st1 = st)
       ∨ (ok = true ∧ (dictGet st.engines c.id).isSome = false
          ∧ (dictGet st1.engines c.id).isSome = true
          ∧ ∀ k, (dictGet st.engines k).isSome = true →
              (dictGet st1.engines k).isSome = true)) := by
  cases hm : (dictGet st.engines c.id).isSome with
  | true =>
    have he : reindex_step now a st c = (reindexAlloc a c, st, true) := by
      simp [reindex_step, hm]
    rw [h] at he
    simp only [Prod.mk.injEq] at he
    obtain ⟨e1, e2, e3⟩ := he
    exact ⟨e1, Or.inl ⟨e3, rfl, e2⟩⟩
  | false =>
    cases hp : hostPortLabel c.labels with
    | none =>
      have he : reindex_step now a st c = (reindexAlloc a c, st, false) := by
        simp [reindex_step, hm, hp]
      rw [h] at he
      simp only [Prod.mk.injEq] at he
      obtain ⟨e1, e2, e3⟩ := he
      exact ⟨e1, Or.inr (Or.inl ⟨e3, rfl, rfl, e2⟩)⟩
    | some p0 =>
      have he : reindex_step now a st c =
          (reindexAlloc a c,
           { st with engines := dictSet st.engines c.id (mkReindexEngine now c p0) },
           true) := by
        simp [reindex_step, hm, hp]
      rw [h] at he
      simp only [Prod.mk.injEq] at he
      obtain ⟨e1, e2, e3⟩ := he
      refine ⟨e1, Or.inr (Or.inr ⟨e3, rfl, ?_, ?_⟩)⟩
      · rw [e2]
        simp [dictGet_dictSet_self]
      · intro k hk
        rw [e2]
        exact dictGet_dictSet_isSome _ _ _ _ hk

theorem reindex_step_grows (now : PyDateTime) (a : AllocState) (st : OrchState)
    (c : ContainerV) (a1 : AllocState) (st1 : OrchState) (ok : Bool)
    (h : reindex_step now a st c = (a1, st1, ok)) : StateGrows a a1 st st1 := by
  obtain ⟨e1, hcase⟩ := reindex_step_cases now a st c a1 st1 ok h
  subst e1
  obtain ⟨hg1, hg2, hg3⟩ := reindexAlloc_grows a c
  rcases hcase with ⟨_, _, e2⟩ | ⟨_, _, _, e2⟩ | ⟨_, _, _, hmono⟩
  · subst e2; exact ⟨hg1, hg2, hg3, fun _ hk => hk⟩
  · subst e2; exact ⟨hg1, hg2, hg3, fun _ hk => hk⟩
  · exact ⟨hg1, hg2, hg3, hmono⟩

theorem reindex_step_true_done (now : PyDateTime) (a : AllocState) (st : OrchState)
    (c : ContainerV) (a1 : AllocState) (st1 : OrchState)
    (h : reindex_step now a st c = (a1, st1, true)) :
    ReservesDone c a1 ∧ (dictGet st1.engines c.id).isSome = true := by
  obtain ⟨e1, hcase⟩ := reindex_step_cases now a st c a1 st1 true h
  subst e1
  refine ⟨reindexAlloc_done a c, ?_⟩
  rcases hcase with ⟨_, hm, e2⟩ | ⟨hfalse, _, _, _⟩ | ⟨_, _, hsome, _⟩
  · subst e2; exact hm
  · exact absurd hfalse (by simp)
  · exact hsome

theorem reindex_step_noop (now : PyDateTime) (a : AllocState) (st : OrchState) (c : ContainerV)
    (hr : ReservesDone c a) (he : (dictGet st.engines c.id).isSome = true) :
    reindex_step now a st c = (a, st, true) := by
  simp [reindex_step, he, reindexAlloc_id a c hr]

theorem reindex_step_abort_rerun (now2 : PyDateTime) {now1 : PyDateTime} {a : AllocState}
    {st : OrchState} {c : ContainerV} {a1 : AllocState} {st1 : OrchState}
    (h : reindex_step now1 a st c = (a1, st1, false)) :
    reindex_step now2 a1 st1 c = (a1, st1, false) := by
  obtain ⟨e1, hcase⟩ := reindex_step_cases now1 a st c a1 st1 false h
  rcases hcase with ⟨hft, _, _⟩ | ⟨_, hm, hp, e2⟩ | ⟨hft, _, _, _⟩
  · exact absurd hft (by simp)
  · subst e2
    subst e1
    simp [reindex_step, hm, hp, reindexAlloc_id (reindexAlloc a c) c (reindexAlloc_done a c)]
  · exact absurd hft (by simp)

theorem reservesDone_mono {c : ContainerV} {a a' : AllocState} (hd : ReservesDone c a)
    (h1 : a.http.used ⊆ a'.http.used) (h2 : a.https.used ⊆ a'.https.used)
    (h3 : a.host.used ⊆ a'.host.used) : ReservesDone c a' :=
  ⟨fun n hn => h1 (hd.1 n hn), fun n hn => h2 (hd.2.1 n hn),
   fun n hn => h3 (hd.2.2.1 n hn), fun n hn => h3 (hd.2.2.2 n hn)⟩

theorem reindex_run_grows (now : PyDateTime) :
    ∀ (cs : List ContainerV) (a : AllocState) (st : OrchState),
      StateGrows a (reindex_existing now cs a st).1 st (reindex_existing now cs a st).2 := by
  intro cs
  induction cs with
  | nil => intro a st; exact stateGrows_refl a st
  | cons c t ih =>
    intro a st
    cases hstep : reindex_step now a st c with
    | mk a1 pr =>
      obtain ⟨st1, ok⟩ := pr
      cases ok with
      | true =>
        rw [reindex_existing_cons_true now c t a st a1 st1 hstep]
        exact stateGrows_trans (reindex_step_grows now a st c a1 st1 true hstep) (ih a1 st1)
      | false =>
        rw [reindex_existing_cons_false now c t a st a1 st1 hstep]
        exact reindex_step_grows now a st c a1 st1 false hstep

/-- C8: for any fixed listing of managed containers and any starting
allocator/state configuration, a second `reindex_existing` run (at any later
instant) leaves the allocator — all three used sets and cursors — and the
state store's maps exactly as the first run left them: reserves are
idempotent set insertions and engine synthesis is guarded by key membership.
Streams are untouched by reindex, so their map is trivially equal as well. -/
theorem reindex_idempotent (cs : List ContainerV) (a : AllocState) (st : OrchState)
    (t1 t2 : PyDateTime) :
    reindex_existing t2 cs (reindex_existing t1 cs a st).1 (reindex_existing t1 cs a st).2
      = reindex_existing t1 cs a st := by
  induction cs generalizing a st with
  | nil => rfl
  | cons c t ih =>
    cases hstep : reindex_step t1 a st c with
    | mk a1 pr =>
      obtain ⟨st1, ok⟩ := pr
      cases ok with
      | true =>
        have e1 := reindex_existing_cons_true t1 c t a st a1 st1 hstep
        rw [e1]
        have hd1 := reindex_step_true_done t1 a st c a1 st1 hstep
        have hg := reindex_run_grows t1 t a1 st1
        have hnoop := reindex_step_noop t2 (reindex_existing t1 t a1 st1).1
          (reindex_existing t1 t a1 st1).2 c
          (reservesDone_mono hd1.1 hg.1 hg.2.1 hg.2.2.1)
          (hg.2.2.2 c.id hd1.2)
        have e2 := reindex_existing_cons_true t2 c t (reindex_existing t1 t a1 st1).1
          (reindex_existing t1 t a1 st1).2 (reindex_existing t1 t a1 st1).1
          (reindex_existing t1 t a1 st1).2 hnoop
        rw [e2]
        exact ih a1 st1
      | false =>
        have e1 := reindex_existing_cons_false t1 c t a st a1 st1 hstep
        rw [e1]
        exact reindex_existing_cons_false t2 c t a1 st1 a1 st1
          (reindex_step_abort_rerun t2 hstep)

/-- Witness for `streams_ended_iff_status`: the stream created by one
`on_stream_started` from the empty state satisfies the invariant. -/
theorem streams_ended_iff_status_witness :
    (("sid-1", (on_stream_started initState evtNamedSid 0).1) ∈
        (runOps [StateOp.started evtNamedSid 0]).streams)
    ∧ ((on_stream_started initState evtNamedSid 0).1.ended_at ≠ none ↔
        (on_stream_started initState evtNamedSid 0).1.status = "ended") :=
  ⟨by decide, streams_ended_iff_status [StateOp.started evtNamedSid 0]
      ("sid-1", (on_stream_started initState evtNamedSid 0).1) (by decide)⟩
